import Mathlib

/-!
Shallow embedding of the repository-context core of `clawcrew`:
the directory-tree renderer, key-file classifier, safe file reader and
context assembler from `src/clawcrew/utils/github.py`, and the
line-numbered file packager (`read_files`) from `bin/agent-cli.py`.

Python strings are modelled as `List Char` (Python `len` counts
characters; the model equates the on-disk byte count of a file with the
length of its decoded text, which is exact for single-byte content).
File contents on disk are modelled as byte lists (`List Nat`); UTF-8
decoding is modelled on its single-byte fragment: bytes below 128 decode
to the corresponding character, others are invalid (replaced by U+FFFD
under lossy decoding, a failure under strict decoding).
-/

namespace Clawcrew

/-- Python strings, modelled as character lists. -/
abbrev Str := List Char

/-- Embed a Lean string literal as a model string. -/
def str (s : String) : Str := s.data

/-- Python `str(n)` for a natural number. -/
def natStr (n : Nat) : Str := (toString n).data

/-- Python `s.lower()` (ASCII fragment). -/
def lower (s : Str) : Str := s.map Char.toLower

/-- Python `name.startswith('.')`. -/
def startsWithDot (s : Str) : Bool :=
  match s with
  | [] => false
  | c :: _ => c = '.'

/-- Python `"sep".join(parts)`. -/
def joinSep (sep : Str) : List Str → Str
  | [] => []
  | [x] => x
  | x :: y :: rest => (x ++ sep) ++ joinSep sep (y :: rest)

/-- Right-align a string in a field of width `w` (Python format `>{w}`). -/
def padLeft (w : Nat) (s : Str) : Str := List.replicate (w - s.length) ' ' ++ s

/-- Split on newline characters, keeping every piece (plain split). -/
def splitOnNl : Str → List Str
  | [] => [[]]
  | c :: rest =>
    if c = '\n' then [] :: splitOnNl rest
    else
      match splitOnNl rest with
      | [] => [[c]]
      | p :: ps => (c :: p) :: ps

/-- Python `s.splitlines()` restricted to `'\n'` boundaries. -/
def splitLines (s : Str) : List Str :=
  match s with
  | [] => []
  | _ =>
    let parts := splitOnNl s
    if s.getLast? = some '\n' then parts.dropLast else parts

/-- Association-list lookup by model-string key. -/
def assoc {α : Type} : List (Str × α) → Str → Option α
  | [], _ => none
  | (k, v) :: rest, n => if k = n then some v else assoc rest n

/-- A filesystem snapshot node.  `file readable bytes` is a regular file
(`readable = false` models a file whose open/stat raises, e.g. permission
denied); `dir readable children` is a directory whose listing is
`children` in on-disk enumeration order (`readable = false` models a
directory whose `iterdir` raises `PermissionError`). -/
inductive FSTree where
  | file (readable : Bool) (bytes : List Nat)
  | dir (readable : Bool) (children : List (Str × FSTree))

/-- Paths relative to the analysed root, as component lists. -/
abbrev Path := List Str

def lookupChild : List (Str × FSTree) → Str → Option FSTree
  | [], _ => none
  | (m, t) :: rest, n => if m = n then some t else lookupChild rest n

/-- Resolve a relative path against a snapshot (Python `repo_path / p`
followed by `stat`).  Resolution does not model traversal permissions:
the `readable` flag of a directory only governs listing it. -/
def resolve : FSTree → Path → Option FSTree
  | t, [] => some t
  | FSTree.dir _ cs, n :: p =>
    match lookupChild cs n with
    | some t => resolve t p
    | none => none
  | FSTree.file _ _, _ :: _ => none

/-- UTF-8 decoding with `errors="replace"` on the single-byte fragment:
total, every byte yields one character, invalid bytes become U+FFFD. -/
def lossyDecode (bs : List Nat) : Str :=
  bs.map (fun b => if b < 128 then Char.ofNat b else Char.ofNat 0xFFFD)

/-- Strict UTF-8 decoding on the single-byte fragment: fails (raises
`UnicodeDecodeError` in the source) iff some byte is invalid. -/
def strictDecode (bs : List Nat) : Option Str :=
  if bs.all (fun b => b < 128) then some (bs.map Char.ofNat) else none

/-- Bytes of an ASCII text, for building concrete snapshots. -/
def asciiBytes (s : String) : List Nat := s.data.map Char.toNat

-- ===========================================================================
-- Configuration constants (github.py)
-- ===========================================================================

def MAX_FILE_SIZE : Nat := 100 * 1024
def MAX_TOTAL_CONTENT : Nat := 500 * 1024
def MAX_TREE_DEPTH : Nat := 4
def MAX_FILES_PER_CATEGORY : Nat := 5

def PRIORITY_FILES : List Str :=
  [str "README.md", str "README.rst", str "README.txt", str "README",
   str "CONTRIBUTING.md", str "ARCHITECTURE.md", str "DESIGN.md"]

def ENTRY_POINT_PATTERNS : List Str :=
  [str "main.py", str "app.py", str "run.py", str "__main__.py", str "cli.py",
   str "src/main.py", str "src/app.py", str "src/__main__.py",
   str "index.js", str "index.ts", str "main.js", str "main.ts",
   str "app.js", str "app.ts",
   str "src/index.js", str "src/index.ts", str "src/main.js", str "src/main.ts",
   str "main.go", str "cmd/main.go",
   str "src/main.rs", str "src/lib.rs"]

def CONFIG_FILES : List Str :=
  [str "pyproject.toml", str "setup.py", str "setup.cfg", str "requirements.txt",
   str "Pipfile", str "poetry.lock",
   str "package.json", str "package-lock.json", str "yarn.lock", str "tsconfig.json",
   str "go.mod", str "go.sum",
   str "Cargo.toml", str "Cargo.lock",
   str "Makefile", str "Dockerfile", str "docker-compose.yml", str ".env.example"]

-- ===========================================================================
-- Directory tree renderer (generate_file_tree)
-- ===========================================================================

/-- The fixed noise set skipped by the tree walker. -/
def skipDirs : List Str :=
  [str ".git", str "node_modules", str "__pycache__", str ".venv", str "venv",
   str "dist", str "build", str ".tox", str ".pytest_cache", str ".mypy_cache",
   str "target", str "vendor"]

def isDirT : FSTree → Bool
  | FSTree.dir _ _ => true
  | FSTree.file _ _ => false

def isFileT : FSTree → Bool
  | FSTree.dir _ _ => false
  | FSTree.file _ _ => true

/-- Python sort key `(not x.is_dir(), x.name.lower())`. -/
def entryKey (e : Str × FSTree) : Bool × Str := (!(isDirT e.2), lower e.1)

/-- Lexicographic `≤` on character lists (Python string comparison). -/
def strLeB : Str → Str → Bool
  | [], _ => true
  | _ :: _, [] => false
  | a :: as, b :: bs => if a = b then strLeB as bs else decide (a < b)

/-- Lexicographic `≤` on sort keys (`false < true` on the Bool part). -/
def keyLeB : Bool × Str → Bool × Str → Bool
  | (a, s), (b, t) => if a = b then strLeB s t else !a

/-- Comparison used by `sorted(path.iterdir(), key=...)`. -/
def entryLE (x y : Str × FSTree) : Prop := keyLeB (entryKey x) (entryKey y) = true

instance : DecidableRel entryLE := fun x y =>
  inferInstanceAs (Decidable (keyLeB (entryKey x) (entryKey y) = true))

/-- Filter retaining rendered subdirectories: directories that are not in
the noise set and not hidden. -/
def dirOK (e : Str × FSTree) : Bool :=
  isDirT e.2 && !(decide (e.1 ∈ skipDirs)) && !(startsWithDot e.1)

/-- Filter retaining rendered files: files that are not hidden. -/
def fileOK (e : Str × FSTree) : Bool :=
  isFileT e.2 && !(startsWithDot e.1)

/-- The body of the `for i, entry in enumerate(all_entries)` loop of
`walk`: renders one entry line per iteration (directories recurse through
`recurse`). -/
def renderLoop (recurse : (Str × FSTree) → Str → List Str) (pre : Str)
    (truncated : Bool) (n : Nat) : Nat → List (Str × FSTree) → List Str
  | _, [] => []
  | i, e :: rest =>
    let isLast : Bool := (i == n - 1) && !truncated
    let connector : Str := if isLast then str "└── " else str "├── "
    (match e.2 with
     | FSTree.dir _ _ =>
       ((pre ++ connector) ++ (e.1 ++ str "/")) ::
         recurse e (pre ++ (if isLast then str "    " else str "│   "))
     | FSTree.file _ _ => [(pre ++ connector) ++ e.1]) ++
      renderLoop recurse pre truncated n (i + 1) rest

/-- The recursive `walk` of `generate_file_tree`.  Fuel `f` corresponds to
depth `MAX_TREE_DEPTH + 1 - f`; fuel `0` is the `depth > max_depth` early
return.  A `file` node returns nothing (the source would raise
`NotADirectoryError` there, but `walk` is only ever invoked on
directories); a non-listable directory returns nothing (the caught
`PermissionError`). -/
def walk : Nat → FSTree → Str → List Str
  | 0, _, _ => []
  | _ + 1, FSTree.file _ _, _ => []
  | _ + 1, FSTree.dir false _, _ => []
  | fuel + 1, FSTree.dir true children, pre =>
    let entries := List.insertionSort entryLE children
    let dirs := entries.filter dirOK
    let files0 := entries.filter fileOK
    let truncated : Bool := decide (10 < files0.length)
    let files := if truncated then files0.take 10 else files0
    let all := dirs ++ files
    renderLoop (fun e p => walk fuel e.2 p) pre truncated all.length 0 all ++
      (if truncated then
        [(pre ++ str "└── ... (") ++
          (natStr (entries.length - dirs.length - 10) ++ str " more files)")]
       else [])

/-- The `lines` list built by `generate_file_tree` before joining. -/
def treeLines (fs : FSTree) (rootName : Str) : List Str :=
  (rootName ++ str "/") :: walk (MAX_TREE_DEPTH + 1) fs (str "")

/-- `generate_file_tree(repo_path)`. -/
def generate_file_tree (fs : FSTree) (rootName : Str) : Str :=
  joinSep (str "\n") (treeLines fs rootName)

-- ===========================================================================
-- Safe file reader (read_file_safe)
-- ===========================================================================

def joinPath (p : Path) : Str := joinSep (str "/") p

/-- The `[Error reading file: {e}]` marker. -/
def errNote (cause : Str) : Str := (str "[Error reading file: " ++ cause) ++ str "]"

/-- The oversize header `[File truncated - {size} bytes, showing first {max_size}]`. -/
def truncHeader (size maxSize : Nat) : Str :=
  ((str "[File truncated - " ++ natStr size) ++
    (str " bytes, showing first " ++ natStr maxSize)) ++ str "]\n"

/-- `read_file_safe(path, max_size)`.  The `except Exception` branch covers
a missing path, a directory, or an unreadable file. -/
def read_file_safe (fs : FSTree) (p : Path) (max_size : Nat) : Str :=
  match resolve fs p with
  | some (FSTree.file true bytes) =>
    if bytes.length > max_size then
      truncHeader bytes.length max_size ++ (lossyDecode bytes).take max_size
    else lossyDecode bytes
  | some (FSTree.file false _) =>
    errNote (str "Permission denied: " ++ joinPath p)
  | some (FSTree.dir _ _) =>
    errNote (str "Is a directory: " ++ joinPath p)
  | none =>
    errNote (str "No such file or directory: " ++ joinPath p)

-- ===========================================================================
-- Key file classifier (find_key_files)
-- ===========================================================================

/-- Split a relative path string on `'/'`. -/
def splitPath (s : Str) : Path :=
  match splitOnNl (s.map (fun c => if c = '/' then '\n' else c)) with
  | parts => parts

def pathExists (fs : FSTree) (p : Path) : Bool := (resolve fs p).isSome

def isDirAt (fs : FSTree) (p : Path) : Bool :=
  match resolve fs p with
  | some (FSTree.dir _ _) => true
  | _ => false

/-- `dir_path.glob("*" + suffix)`: children (of any kind) whose name ends
with `suffix`, in listing order; empty when the path is not a directory. -/
def globList (fs : FSTree) (dirPath : Path) (suffix : Str) : List Path :=
  match resolve fs dirPath with
  | some (FSTree.dir _ cs) =>
    (cs.filter (fun c => decide (suffix <:+ c.1))).map (fun c => dirPath ++ [c.1])
  | _ => []

def coreDirs : List Str := [str "src", str "lib", str "pkg", str "internal", str "app"]

def coreExts : List Str := [str ".py", str ".js", str ".ts", str ".go", str ".rs"]

/-- `find_key_files` before the final per-category clip, in the dict's
insertion order (documentation, entry_points, config, core). -/
def find_key_files_raw (fs : FSTree) : List (Str × List Path) :=
  let documentation :=
    (PRIORITY_FILES.filter (fun n => pathExists fs [n])).map (fun n => [n]) ++
      (globList fs [str "docs"] (str ".md")).take 3
  let config :=
    (CONFIG_FILES.filter (fun n => pathExists fs [n])).map (fun n => [n])
  let entry_points :=
    (ENTRY_POINT_PATTERNS.filter
        (fun n => !(decide ('*' ∈ n)) && pathExists fs (splitPath n))).map splitPath
  let core :=
    (coreDirs.filter (fun d => pathExists fs [d] && isDirAt fs [d])).flatMap
      (fun d => coreExts.flatMap (fun ext => (globList fs [d] ext).take 2))
  [(str "documentation", documentation), (str "entry_points", entry_points),
   (str "config", config), (str "core", core)]

/-- `find_key_files(repo_path)`: the raw selection with every category
clipped to `MAX_FILES_PER_CATEGORY`. -/
def find_key_files (fs : FSTree) : List (Str × List Path) :=
  (find_key_files_raw fs).map (fun c => (c.1, c.2.take MAX_FILES_PER_CATEGORY))

-- ===========================================================================
-- Context assembler (build_repo_context)
-- ===========================================================================

/-- Python `category.replace("_", " ")`. -/
def replaceUnderscore (s : Str) : Str :=
  s.map (fun c => if c = '_' then ' ' else c)

def titleChars : Bool → Str → Str
  | _, [] => []
  | prevAlpha, c :: rest =>
    (if c.isAlpha then (if prevAlpha then c.toLower else c.toUpper) else c) ::
      titleChars c.isAlpha rest

/-- Python `s.title()` (ASCII fragment). -/
def titleCase (s : Str) : Str := titleChars false s

def categoryTitle (s : Str) : Str := titleCase (replaceUnderscore s)

/-- One `### {relative_path}` fenced block of the assembler. -/
def fileBlock (p : Path) (content : Str) : Str :=
  ((str "### " ++ joinPath p) ++ (str "\n\n```\n" ++ content)) ++ str "\n```"

/-- One `## {category_title}` section. -/
def sectionBlock (category : Str) (blocks : List Str) : Str :=
  (str "## " ++ categoryTitle category) ++ (str "\n\n" ++ joinSep (str "\n\n") blocks)

/-- The inner `for file_path in files` loop of `build_repo_context`,
threading `total_size` and collecting `file_contents`. -/
def processFiles (fs : FSTree) : List Path → Nat → Nat × List Str
  | [], total => (total, [])
  | p :: rest, total =>
    if MAX_TOTAL_CONTENT ≤ total then (total, [])
    else
      let content := read_file_safe fs p MAX_FILE_SIZE
      if MAX_TOTAL_CONTENT < total + content.length then
        let remaining := MAX_TOTAL_CONTENT - total
        let content2 := content.take remaining ++ str "\n[Content truncated due to size limits]"
        let res := processFiles fs rest (total + remaining)
        (res.1, fileBlock p content2 :: res.2)
      else
        let res := processFiles fs rest (total + content.length)
        (res.1, fileBlock p content :: res.2)

/-- The outer `for category, files in key_files.items()` loop. -/
def processCategories (fs : FSTree) : List (Str × List Path) → Nat → Nat × List Str
  | [], total => (total, [])
  | (category, files) :: rest, total =>
    if files.isEmpty then processCategories fs rest total
    else
      let res := processFiles fs files total
      let rest2 := processCategories fs rest res.1
      (rest2.1,
        if res.2.isEmpty then rest2.2 else sectionBlock category res.2 :: rest2.2)

/-- `build_repo_context(repo_path, key_files)`, returning the document and
the final value of the internal `total_size` counter. -/
def build_repo_context (fs : FSTree) (rootName : Str)
    (key_files : List (Str × List Path)) : Str × Nat :=
  let tree := generate_file_tree fs rootName
  let treeSection := (str "## File Tree\n\n```\n" ++ tree) ++ str "\n```"
  let res := processCategories fs key_files tree.length
  (joinSep (str "\n\n") (treeSection :: res.2), res.1)

-- ===========================================================================
-- Line-numbered file packager (read_files, agent-cli.py)
-- ===========================================================================

def lang_map : List (Str × Str) :=
  [(str ".py", str "python"), (str ".js", str "javascript"),
   (str ".ts", str "typescript"), (str ".tsx", str "tsx"), (str ".jsx", str "jsx"),
   (str ".go", str "go"), (str ".rs", str "rust"), (str ".rb", str "ruby"),
   (str ".java", str "java"), (str ".c", str "c"), (str ".cpp", str "cpp"),
   (str ".h", str "c"), (str ".hpp", str "cpp"), (str ".cs", str "csharp"),
   (str ".php", str "php"), (str ".swift", str "swift"), (str ".kt", str "kotlin"),
   (str ".scala", str "scala"), (str ".sh", str "bash"), (str ".bash", str "bash"),
   (str ".zsh", str "zsh"), (str ".yml", str "yaml"), (str ".yaml", str "yaml"),
   (str ".json", str "json"), (str ".xml", str "xml"), (str ".html", str "html"),
   (str ".css", str "css"), (str ".scss", str "scss"), (str ".sql", str "sql"),
   (str ".md", str "markdown"), (str ".toml", str "toml"), (str ".ini", str "ini"),
   (str ".cfg", str "ini")]

/-- Index of the last `'.'` in a name (Python `name.rfind('.')`). -/
def rfindDot (name : Str) : Option Nat :=
  match name.reverse.findIdx? (fun c => c = '.') with
  | some j => some (name.length - 1 - j)
  | none => none

/-- `PurePath.suffix` of a single name component. -/
def nameSuffix (name : Str) : Str :=
  match rfindDot name with
  | some i => if 0 < i ∧ i < name.length - 1 then name.drop i else []
  | none => []

/-- `full_path.suffix` for a relative path. -/
def path_suffix (p : Path) : Str :=
  match p.getLast? with
  | none => []
  | some name => nameSuffix name

/-- The per-path body of the `for file_path in file_list` loop of
`read_files`: the contribution to `content_parts` (one block) and whether
`files_read` (true) or `files_missing` (false) is incremented. -/
def renderFileEntry (fs : FSTree) (req : Str) (line_numbers : Bool) : Str × Bool :=
  let header := str "\n## File: " ++ (req ++ str "\n\n")
  match resolve fs (splitPath req) with
  | none => (header ++ str "**Status:** File not found\n\n", false)
  | some (FSTree.dir _ _) => (header ++ str "**Status:** Not a regular file\n\n", false)
  | some (FSTree.file false _) =>
    (header ++ ((str "**Status:** Error reading file: " ++
      (str "Permission denied: " ++ req)) ++ str "\n\n"), false)
  | some (FSTree.file true bytes) =>
    match strictDecode bytes with
    | none => (header ++ str "**Status:** Binary file (cannot display)\n\n", false)
    | some content =>
      let lines := splitLines content
      let lang := (assoc lang_map (lower (path_suffix (splitPath req)))).getD []
      let body :=
        if line_numbers then
          let width := (natStr lines.length).length
          (lines.enum.map (fun q =>
            (padLeft width (natStr (q.1 + 1)) ++ str ": ") ++ (q.2 ++ str "\n"))).flatten
        else
          content ++ (if content.getLast? = some '\n' then [] else str "\n")
      (header ++
        ((str "**Lines:** " ++ natStr lines.length) ++
          ((str "\n\n```" ++ (lang ++ str "\n")) ++ (body ++ str "```\n"))), true)

/-- The `for file_path in file_list` loop of `read_files`: per-request
blocks in request order, plus the `files_read` and `files_missing`
counters. -/
def read_files_loop (fs : FSTree) (line_numbers : Bool) :
    List Str → List Str × Nat × Nat
  | [] => ([], 0, 0)
  | req :: rest =>
    let b := renderFileEntry fs req line_numbers
    let res := read_files_loop fs line_numbers rest
    (b.1 :: res.1,
     (if b.2 then 1 else 0) + res.2.1,
     (if b.2 then 0 else 1) + res.2.2)

/-- `read_files`: the assembled document plus the two counters. -/
def read_files (fs : FSTree) (repoName : Str) (reqs : List Str)
    (line_numbers : Bool) : Str × Nat × Nat :=
  let res := read_files_loop fs line_numbers reqs
  (((str "# Repository File Contents\n" ++
      ((str "**Repository:** `" ++ repoName) ++ str "`\n")) ++
     ((str "**Files:** " ++ natStr reqs.length) ++ (str "\n\n" ++ str "---\n"))) ++
    (res.1.flatten ++
      ((str "\n---\n" ++ (str "\n**Summary:** " ++ natStr res.2.1)) ++
        ((str " files read, " ++ natStr res.2.2) ++ str " files missing/skipped\n"))),
   res.2.1, res.2.2)

-- ===========================================================================
-- Theorems
-- ===========================================================================

/-- C2: every readable regular file contributes at most `MAX_FILE_SIZE`
characters of its own content through the Safe File Reader (the result is
the content clipped to the cap, preceded by a note that is empty on a
clean read); and when the file's size strictly exceeds the cap, the
reader returns the truncation header followed by exactly `MAX_FILE_SIZE`
characters of content. -/
theorem c2_per_file_cap (fs : FSTree) (p : Path) (bytes : List Nat)
    (hres : resolve fs p = some (FSTree.file true bytes)) :
    (∃ note, read_file_safe fs p MAX_FILE_SIZE =
        note ++ (lossyDecode bytes).take MAX_FILE_SIZE ∧
      ((lossyDecode bytes).take MAX_FILE_SIZE).length ≤ MAX_FILE_SIZE) ∧
    (MAX_FILE_SIZE < bytes.length →
      read_file_safe fs p MAX_FILE_SIZE =
        truncHeader bytes.length MAX_FILE_SIZE ++ (lossyDecode bytes).take MAX_FILE_SIZE ∧
      ((lossyDecode bytes).take MAX_FILE_SIZE).length = MAX_FILE_SIZE) := by
  have hlen : (lossyDecode bytes).length = bytes.length := List.length_map _ _
  have htake : ((lossyDecode bytes).take MAX_FILE_SIZE).length ≤ MAX_FILE_SIZE := by
    rw [List.length_take]; exact Nat.min_le_left _ _
  constructor
  · by_cases h : MAX_FILE_SIZE < bytes.length
    · refine ⟨truncHeader bytes.length MAX_FILE_SIZE, ?_, htake⟩
      simp [read_file_safe, hres, h]
    · refine ⟨[], ?_, htake⟩
      have hle : bytes.length ≤ MAX_FILE_SIZE := Nat.le_of_not_lt h
      have : (lossyDecode bytes).take MAX_FILE_SIZE = lossyDecode bytes :=
        List.take_of_length_le (by rw [hlen]; exact hle)
      simp [read_file_safe, hres, h, this]
  · intro h
    refine ⟨by simp [read_file_safe, hres, h], ?_⟩
    rw [List.length_take, hlen]
    exact Nat.min_eq_left (Nat.le_of_lt h)

def c2fs : FSTree :=
  FSTree.dir true [(str "big", FSTree.file true (List.replicate (MAX_FILE_SIZE + 1) 97))]

/-- Witness for C2 on a file one byte over the cap. -/
theorem c2_per_file_cap_witness :
    (∃ note, read_file_safe c2fs [str "big"] MAX_FILE_SIZE =
        note ++ (lossyDecode (List.replicate (MAX_FILE_SIZE + 1) 97)).take MAX_FILE_SIZE ∧
      ((lossyDecode (List.replicate (MAX_FILE_SIZE + 1) 97)).take MAX_FILE_SIZE).length ≤
        MAX_FILE_SIZE) ∧
    (MAX_FILE_SIZE < (List.replicate (MAX_FILE_SIZE + 1) 97).length →
      read_file_safe c2fs [str "big"] MAX_FILE_SIZE =
        truncHeader (List.replicate (MAX_FILE_SIZE + 1) 97).length MAX_FILE_SIZE ++
          (lossyDecode (List.replicate (MAX_FILE_SIZE + 1) 97)).take MAX_FILE_SIZE ∧
      ((lossyDecode (List.replicate (MAX_FILE_SIZE + 1) 97)).take MAX_FILE_SIZE).length =
        MAX_FILE_SIZE) :=
  c2_per_file_cap c2fs [str "big"] (List.replicate (MAX_FILE_SIZE + 1) 97) rfl

/-- C4: the Safe File Reader is a total function (it never raises). For
any path that does not resolve to a readable regular file — missing,
a directory, or unreadable — it returns the in-band error note and no
file content; and lossy decoding turns every byte (valid or not) into
exactly one character, so undecodable bytes never abort a read. -/
theorem c4_reader_never_raises (fs : FSTree) (p : Path) :
    ((∀ bytes, resolve fs p ≠ some (FSTree.file true bytes)) →
      ∃ cause, read_file_safe fs p MAX_FILE_SIZE = errNote cause) ∧
    ∀ bs, (lossyDecode bs).length = bs.length := by
  constructor
  · intro h
    match hres : resolve fs p with
    | none =>
      exact ⟨str "No such file or directory: " ++ joinPath p, by simp [read_file_safe, hres]⟩
    | some (FSTree.dir r cs) =>
      exact ⟨str "Is a directory: " ++ joinPath p, by simp [read_file_safe, hres]⟩
    | some (FSTree.file false bs) =>
      exact ⟨str "Permission denied: " ++ joinPath p, by simp [read_file_safe, hres]⟩
    | some (FSTree.file true bs) => exact absurd hres (h bs)
  · intro bs
    exact List.length_map _ _

/-- Witness for C4 on a missing path in an empty root. -/
theorem c4_reader_never_raises_witness :
    ∃ cause, read_file_safe (FSTree.dir true []) [str "x"] MAX_FILE_SIZE = errNote cause :=
  (c4_reader_never_raises (FSTree.dir true []) [str "x"]).1
    (fun bytes h => by simp [resolve, lookupChild] at h)

def c6fs : FSTree := FSTree.dir true
  [(str "a.py", FSTree.file true (asciiBytes "x = 1\n")),
   (str "b.bin", FSTree.file true [200])]

def c6reqs : List Str := [str "a.py", str "missing.txt", str "b.bin"]

/-- C6: for the request list `["a.py", "missing.txt", "b.bin"]` with
`a.py` decodable text, `missing.txt` absent, and `b.bin` undecodable,
mode B produces exactly one successful content block and two status
blocks, in request order, and reports `files_read = 1`,
`files_missing = 2`; neither failure stops the iteration. -/
theorem c6_mode_b_scenario :
    read_files_loop c6fs false c6reqs =
      ([str "\n## File: a.py\n\n**Lines:** 1\n\n```python\nx = 1\n```\n",
        str "\n## File: missing.txt\n\n**Status:** File not found\n\n",
        str "\n## File: b.bin\n\n**Status:** Binary file (cannot display)\n\n"],
       1, 2) ∧
    (read_files c6fs (str "repo") c6reqs false).2 = (1, 2) := by
  exact ⟨by decide, by decide⟩

/-- C7: each of the four category lists of the Key File Classifier is the
raw (pre-clip) discovery list clipped to at most `MAX_FILES_PER_CATEGORY`
entries, so it has length at most 5 and is a prefix of the discovery
order (surviving entries keep their order). -/
theorem c7_category_cap (fs : FSTree) :
    List.Forall₂
      (fun a b => a.1 = b.1 ∧ a.2.length ≤ MAX_FILES_PER_CATEGORY ∧
        List.IsPrefix a.2 b.2)
      (find_key_files fs) (find_key_files_raw fs) := by
  unfold find_key_files
  refine List.forall₂_map_left_iff.2 (List.forall₂_same.2 ?_)
  intro c _
  refine ⟨rfl, ?_, List.take_prefix _ _⟩
  rw [List.length_take]
  exact Nat.min_le_left _ _

/-- C9: the tree renderer and the key-file classifier are pure functions
of the filesystem snapshot — their embeddings take the snapshot as their
only varying input (no randomness or time source exists in the model) —
so two invocations on an unchanged snapshot give identical results. -/
theorem c9_deterministic (fs1 fs2 : FSTree) (rootName : Str) (h : fs1 = fs2) :
    generate_file_tree fs1 rootName = generate_file_tree fs2 rootName ∧
    find_key_files fs1 = find_key_files fs2 := by
  subst h; exact ⟨rfl, rfl⟩

/-- Witness for C9 on a concrete snapshot. -/
theorem c9_deterministic_witness :
    generate_file_tree (FSTree.dir true [(str "a", FSTree.file true [])]) (str "r") =
      generate_file_tree (FSTree.dir true [(str "a", FSTree.file true [])]) (str "r") ∧
    find_key_files (FSTree.dir true [(str "a", FSTree.file true [])]) =
      find_key_files (FSTree.dir true [(str "a", FSTree.file true [])]) :=
  c9_deterministic _ _ (str "r") rfl

/-- C10: in mode B every requested path yields exactly one block and
bumps exactly one counter, so `files_read + files_missing` equals the
number of requests; and a request counts as read precisely when it
resolves to a readable regular file whose bytes decode as text (each of
not-found, not-a-regular-file, unreadable, and undecodable counts as
missing). -/
theorem c10_mode_b_counters (fs : FSTree) (line_numbers : Bool) (reqs : List Str) :
    ((read_files_loop fs line_numbers reqs).1.length = reqs.length ∧
      (read_files_loop fs line_numbers reqs).2.1 +
        (read_files_loop fs line_numbers reqs).2.2 = reqs.length) ∧
    ∀ req, (renderFileEntry fs req line_numbers).2 = true ↔
      ∃ bytes text, resolve fs (splitPath req) = some (FSTree.file true bytes) ∧
        strictDecode bytes = some text := by
  constructor
  · induction reqs with
    | nil => exact ⟨rfl, rfl⟩
    | cons req rest ih =>
      simp only [read_files_loop, List.length_cons]
      refine ⟨by rw [ih.1], ?_⟩
      rcases ih with ⟨-, ih2⟩
      cases (renderFileEntry fs req line_numbers).2 <;> simp <;> omega
  · intro req
    unfold renderFileEntry
    match hres : resolve fs (splitPath req) with
    | none =>
      simp only [hres]
      exact ⟨fun h => by simp at h, fun ⟨b, t, hb, _⟩ => by simp at hb⟩
    | some (FSTree.dir r cs) =>
      simp only [hres]
      exact ⟨fun h => by simp at h, fun ⟨b, t, hb, _⟩ => by simp at hb⟩
    | some (FSTree.file false bs) =>
      simp only [hres]
      exact ⟨fun h => by simp at h, fun ⟨b, t, hb, _⟩ => by simp at hb⟩
    | some (FSTree.file true bs) =>
      simp only [hres]
      match hdec : strictDecode bs with
      | none =>
        simp only [hdec]
        refine ⟨fun h => by simp at h, fun ⟨b, t, hb, ht⟩ => ?_⟩
        have hb2 : bs = b := by
          have := Option.some.inj hb
          injection this
        rw [← hb2, hdec] at ht
        exact absurd ht (by simp)
      | some content =>
        simp only [hdec]
        exact ⟨fun _ => ⟨bs, content, rfl, hdec⟩, fun _ => trivial⟩

/-- Witness for C10: counters on a concrete two-request run. -/
theorem c10_mode_b_counters_witness :
    (read_files_loop c6fs true [str "a.py", str "nope"]).1.length = 2 ∧
    (read_files_loop c6fs true [str "a.py", str "nope"]).2.1 +
      (read_files_loop c6fs true [str "a.py", str "nope"]).2.2 = 2 :=
  (c10_mode_b_counters c6fs true [str "a.py", str "nope"]).1

lemma processFiles_stop (fs : FSTree) (ps : List Path) (total : Nat)
    (h : MAX_TOTAL_CONTENT ≤ total) : processFiles fs ps total = (total, []) := by
  cases ps with
  | nil => rfl
  | cons p rest => simp [processFiles, h]

lemma processCategories_stop (fs : FSTree) :
    ∀ (cats : List (Str × List Path)) (total : Nat),
      MAX_TOTAL_CONTENT ≤ total → processCategories fs cats total = (total, []) := by
  intro cats
  induction cats with
  | nil => intro total _; rfl
  | cons c rest ih =>
    intro total h
    obtain ⟨category, files⟩ := c
    by_cases hf : files.isEmpty
    · simp [processCategories, hf, ih total h]
    · simp [processCategories, hf, processFiles_stop fs files total h, ih total h]

/-- C5: once the running total has reached `MAX_TOTAL_CONTENT`, mode A
emits no further file blocks and no further section headers at all; and
a category section appears in the assembler's output exactly when at
least one of that category's files produced a block (sections in the
output always carry a nonempty block list, and a category whose file
loop produced blocks does get its section). -/
theorem c5_budget_stop_and_headers (fs : FSTree) :
    (∀ cats total, MAX_TOTAL_CONTENT ≤ total →
      processCategories fs cats total = (total, [])) ∧
    (∀ cats total sec, sec ∈ (processCategories fs cats total).2 →
      ∃ category files t2,
        (category, files) ∈ cats ∧ (processFiles fs files t2).2 ≠ [] ∧
        sec = sectionBlock category (processFiles fs files t2).2) ∧
    (∀ category files rest total, (processFiles fs files total).2 ≠ [] →
      sectionBlock category (processFiles fs files total).2 ∈
        (processCategories fs ((category, files) :: rest) total).2) := by
  refine ⟨processCategories_stop fs, ?_, ?_⟩
  · intro cats
    induction cats with
    | nil => intro total sec hmem; simp [processCategories] at hmem
    | cons c rest ih =>
      intro total sec hmem
      obtain ⟨category, files⟩ := c
      by_cases hf : files.isEmpty
      · rw [show processCategories fs ((category, files) :: rest) total =
            processCategories fs rest total by simp [processCategories, hf]] at hmem
        obtain ⟨cat2, fls2, t2, hin, hne, hsec⟩ := ih total sec hmem
        exact ⟨cat2, fls2, t2, List.mem_cons_of_mem _ hin, hne, hsec⟩
      · by_cases hb : (processFiles fs files total).2.isEmpty
        · rw [show (processCategories fs ((category, files) :: rest) total).2 =
              (processCategories fs rest (processFiles fs files total).1).2 by
                simp [processCategories, hf, hb]] at hmem
          obtain ⟨cat2, fls2, t2, hin, hne, hsec⟩ := ih _ sec hmem
          exact ⟨cat2, fls2, t2, List.mem_cons_of_mem _ hin, hne, hsec⟩
        · rw [show (processCategories fs ((category, files) :: rest) total).2 =
              sectionBlock category (processFiles fs files total).2 ::
                (processCategories fs rest (processFiles fs files total).1).2 by
                simp [processCategories, hf, hb]] at hmem
          rcases List.mem_cons.1 hmem with hsec | hmem2
          · exact ⟨category, files, total, List.mem_cons_self _ _,
              fun he => hb (by simp [he]), hsec⟩
          · obtain ⟨cat2, fls2, t2, hin, hne, hsec⟩ := ih _ sec hmem2
            exact ⟨cat2, fls2, t2, List.mem_cons_of_mem _ hin, hne, hsec⟩
  · intro category files rest total h
    have hf : files.isEmpty = false := by
      cases files with
      | nil => exact absurd rfl h
      | cons p ps => rfl
    have hb : (processFiles fs files total).2.isEmpty = false := by
      cases hpf : (processFiles fs files total).2 with
      | nil => exact absurd hpf h
      | cons x xs => rfl
    rw [show (processCategories fs ((category, files) :: rest) total).2 =
        sectionBlock category (processFiles fs files total).2 ::
          (processCategories fs rest (processFiles fs files total).1).2 by
          simp [processCategories, hf, hb]]
    exact List.mem_cons_self _ _

def c5fs : FSTree := FSTree.dir true [(str "a", FSTree.file true (asciiBytes "hi"))]

/-- Witness for C5: full budget stops everything; a productive category
gets its section. -/
theorem c5_budget_stop_and_headers_witness :
    processCategories c5fs [(str "documentation", [[str "a"]])] MAX_TOTAL_CONTENT =
      (MAX_TOTAL_CONTENT, []) ∧
    sectionBlock (str "documentation") ((processFiles c5fs [[str "a"]] 0).2) ∈
      (processCategories c5fs [(str "documentation", [[str "a"]])] 0).2 :=
  ⟨(c5_budget_stop_and_headers c5fs).1 _ _ (Nat.le_refl _),
   (c5_budget_stop_and_headers c5fs).2.2 (str "documentation") [[str "a"]] [] 0
     (by decide)⟩

lemma processFiles_le (fs : FSTree) : ∀ (ps : List Path) (total : Nat),
    (processFiles fs ps total).1 ≤ max total MAX_TOTAL_CONTENT := by
  intro ps
  induction ps with
  | nil => intro total; exact le_max_left _ _
  | cons p rest ih =>
    intro total
    by_cases h1 : MAX_TOTAL_CONTENT ≤ total
    · simp only [processFiles, if_pos h1]
      exact le_max_left _ _
    · by_cases h2 : MAX_TOTAL_CONTENT < total + (read_file_safe fs p MAX_FILE_SIZE).length
      · simp only [processFiles, if_neg h1, if_pos h2]
        have he : total + (MAX_TOTAL_CONTENT - total) = MAX_TOTAL_CONTENT := by omega
        calc (processFiles fs rest (total + (MAX_TOTAL_CONTENT - total))).1
            ≤ max (total + (MAX_TOTAL_CONTENT - total)) MAX_TOTAL_CONTENT := ih _
          _ = MAX_TOTAL_CONTENT := by rw [he]; exact Nat.max_self _
          _ ≤ max total MAX_TOTAL_CONTENT := le_max_right _ _
      · simp only [processFiles, if_neg h1, if_neg h2]
        have hle : total + (read_file_safe fs p MAX_FILE_SIZE).length ≤ MAX_TOTAL_CONTENT :=
          Nat.le_of_not_lt h2
        calc (processFiles fs rest (total + (read_file_safe fs p MAX_FILE_SIZE).length)).1
            ≤ max (total + (read_file_safe fs p MAX_FILE_SIZE).length) MAX_TOTAL_CONTENT := ih _
          _ = MAX_TOTAL_CONTENT := Nat.max_eq_right hle
          _ ≤ max total MAX_TOTAL_CONTENT := le_max_right _ _

lemma processCategories_le (fs : FSTree) : ∀ (cats : List (Str × List Path)) (total : Nat),
    (processCategories fs cats total).1 ≤ max total MAX_TOTAL_CONTENT := by
  intro cats
  induction cats with
  | nil => intro total; exact le_max_left _ _
  | cons c rest ih =>
    intro total
    obtain ⟨category, files⟩ := c
    by_cases hf : files.isEmpty
    · simp only [processCategories, if_pos hf]
      exact ih total
    · simp only [processCategories, if_neg hf]
      exact le_trans (ih _)
        (max_le (processFiles_le fs files total) (le_max_right _ _))

/-- C1 (amended): at the end of mode A assembly the running `total_size`
counter is bounded by the larger of the rendered tree's length and
`MAX_TOTAL_CONTENT`; file content beyond the tree never pushes it past
the cap, but the tree section itself is counted uncapped. -/
theorem c1_amended_budget (fs : FSTree) (rootName : Str)
    (key_files : List (Str × List Path)) :
    (build_repo_context fs rootName key_files).2 ≤
      max (generate_file_tree fs rootName).length MAX_TOTAL_CONTENT := by
  simp only [build_repo_context]
  exact processCategories_le fs key_files _

/-- A root holding one empty file whose name is 600001 characters long:
its tree line alone exceeds `MAX_TOTAL_CONTENT`. -/
def c1name : Str := List.replicate 600001 'a'

def c1fs : FSTree := FSTree.dir true [(c1name, FSTree.file true [])]

/-- C1 (counterexample): on `c1fs` the mode A pipeline ends with
`total_size > MAX_TOTAL_CONTENT` (the tree is counted but never capped),
refuting the claim that the counter never exceeds `TotalCap`. -/
theorem c1_counterexample :
    MAX_TOTAL_CONTENT < (build_repo_context c1fs (str "root") (find_key_files c1fs)).2 := by
  have hkf : find_key_files c1fs =
      [(str "documentation", []), (str "entry_points", []),
       (str "config", []), (str "core", [])] := rfl
  have h2 : (build_repo_context c1fs (str "root") (find_key_files c1fs)).2 =
      (generate_file_tree c1fs (str "root")).length := by
    rw [hkf]
    simp [build_repo_context, processCategories]
  have h3 : generate_file_tree c1fs (str "root") =
      ((str "root" ++ str "/") ++ str "\n") ++ ((str "" ++ str "└── ") ++ c1name) := rfl
  rw [h2, h3]
  have l1 : (str "root").length = 4 := by decide
  have l2 : (str "/").length = 1 := by decide
  have l3 : (str "\n").length = 1 := by decide
  have l4 : (str "").length = 0 := by decide
  have l5 : (str "└── ").length = 4 := by decide
  have l6 : c1name.length = 600001 := List.length_replicate 600001 'a'
  have hM : MAX_TOTAL_CONTENT = 512000 := by norm_num [MAX_TOTAL_CONTENT]
  simp only [List.length_append, l1, l2, l3, l4, l5, l6, hM]
  omega

lemma strLeB_total : ∀ a b : Str, strLeB a b = true ∨ strLeB b a = true := by
  intro a
  induction a with
  | nil => intro b; exact Or.inl rfl
  | cons x xs ih =>
    intro b
    cases b with
    | nil => exact Or.inr rfl
    | cons y ys =>
      by_cases hxy : x = y
      · subst hxy
        rcases ih ys with h | h
        · exact Or.inl (by simp [strLeB, h])
        · exact Or.inr (by simp [strLeB, h])
      · rcases lt_or_gt_of_ne hxy with h | h
        · exact Or.inl (by simp [strLeB, hxy, h])
        · exact Or.inr (by simp [strLeB, Ne.symm hxy, h])

lemma strLeB_trans : ∀ a b c : Str, strLeB a b = true → strLeB b c = true →
    strLeB a c = true := by
  intro a
  induction a with
  | nil => intro b c _ _; rfl
  | cons x xs ih =>
    intro b c h1 h2
    cases b with
    | nil => simp [strLeB] at h1
    | cons y ys =>
      cases c with
      | nil => simp [strLeB] at h2
      | cons z zs =>
        by_cases hxy : x = y <;> by_cases hyz : y = z
        · subst hxy; subst hyz
          simp only [strLeB, if_pos rfl] at h1 h2 ⊢
          exact ih _ _ h1 h2
        · subst hxy
          simp only [strLeB, if_pos rfl, if_neg hyz] at h2 ⊢
          exact h2
        · subst hyz
          simp only [strLeB, if_neg hxy] at h1 ⊢
          exact h1
        · simp only [strLeB, if_neg hxy] at h1
          simp only [strLeB, if_neg hyz] at h2
          have hlt : x < z := lt_trans (of_decide_eq_true h1) (of_decide_eq_true h2)
          simp only [strLeB, if_neg (ne_of_lt hlt)]
          exact decide_eq_true hlt

lemma keyLeB_total : ∀ p q : Bool × Str, keyLeB p q = true ∨ keyLeB q p = true := by
  rintro ⟨a, s⟩ ⟨b, t⟩
  by_cases hab : a = b
  · subst hab
    rcases strLeB_total s t with h | h
    · exact Or.inl (by simp [keyLeB, h])
    · exact Or.inr (by simp [keyLeB, h])
  · cases a
    · exact Or.inl (by simp [keyLeB, hab])
    · cases b
      · exact Or.inr (by simp [keyLeB, Ne.symm hab])
      · exact absurd rfl hab

lemma keyLeB_trans : ∀ p q u : Bool × Str, keyLeB p q = true → keyLeB q u = true →
    keyLeB p u = true := by
  rintro ⟨a, s⟩ ⟨b, t⟩ ⟨c, v⟩ h1 h2
  by_cases hab : a = b <;> by_cases hbc : b = c
  · subst hab; subst hbc
    simp only [keyLeB, if_pos rfl] at h1 h2 ⊢
    exact strLeB_trans _ _ _ h1 h2
  · subst hab
    simp only [keyLeB, if_neg hbc] at h2 ⊢
    exact h2
  · subst hbc
    simp only [keyLeB, if_neg hab] at h1 ⊢
    exact h1
  · simp only [keyLeB, if_neg hab] at h1
    simp only [keyLeB, if_neg hbc] at h2
    have ha : a = false := by
      cases a
      · rfl
      · simp at h1
    have hb : b = false := by
      cases b
      · rfl
      · simp at h2
    exact absurd (ha.trans hb.symm) hab

instance : IsTotal (Str × FSTree) entryLE :=
  ⟨fun x y => by
    unfold entryLE
    exact keyLeB_total (entryKey x) (entryKey y)⟩

instance : IsTrans (Str × FSTree) entryLE :=
  ⟨fun _ _ _ h1 h2 => keyLeB_trans _ _ _ h1 h2⟩

/-- Unfolding equation for `walk` on a listable directory. -/
lemma walk_dir (fuel : Nat) (children : List (Str × FSTree)) (pre : Str) :
    walk (fuel + 1) (FSTree.dir true children) pre =
      (let entries := List.insertionSort entryLE children
       let dirs := entries.filter dirOK
       let files0 := entries.filter fileOK
       let truncated : Bool := decide (10 < files0.length)
       let files := if truncated then files0.take 10 else files0
       let all := dirs ++ files
       renderLoop (fun e p => walk fuel e.2 p) pre truncated all.length 0 all ++
         (if truncated then
           [(pre ++ str "└── ... (") ++
             (natStr (entries.length - dirs.length - 10) ++ str " more files)")]
          else [])) := rfl

lemma orderedInsert_key_congr (x x' : Str × FSTree) (hk : entryKey x = entryKey x') :
    ∀ l, ∃ l₁ l₂, List.orderedInsert entryLE x l = l₁ ++ x :: l₂ ∧
      List.orderedInsert entryLE x' l = l₁ ++ x' :: l₂ ∧ l = l₁ ++ l₂ := by
  intro l
  induction l with
  | nil => exact ⟨[], [], rfl, rfl, rfl⟩
  | cons b t ih =>
    by_cases hle : entryLE x b
    · have hle' : entryLE x' b := by
        unfold entryLE at hle ⊢
        rw [← hk]
        exact hle
      exact ⟨[], b :: t, by simp [List.orderedInsert, hle],
        by simp [List.orderedInsert, hle'], rfl⟩
    · have hle' : ¬ entryLE x' b := by
        unfold entryLE at hle ⊢
        rw [← hk]
        exact hle
      obtain ⟨l₁, l₂, h1, h2, h3⟩ := ih
      exact ⟨b :: l₁, l₂, by simp [List.orderedInsert, hle, h1],
        by simp [List.orderedInsert, hle', h2], by simp [h3]⟩

lemma insertionSort_cons_key (x x' : Str × FSTree) (hk : entryKey x = entryKey x')
    (c : List (Str × FSTree)) :
    ∃ l₁ l₂, List.insertionSort entryLE (x :: c) = l₁ ++ x :: l₂ ∧
      List.insertionSort entryLE (x' :: c) = l₁ ++ x' :: l₂ ∧
      List.insertionSort entryLE c = l₁ ++ l₂ := by
  obtain ⟨l₁, l₂, h1, h2, h3⟩ :=
    orderedInsert_key_congr x x' hk (List.insertionSort entryLE c)
  exact ⟨l₁, l₂, by simpa [List.insertionSort] using h1,
    by simpa [List.insertionSort] using h2, h3⟩

lemma walk_replace_hidden_noise (fuel : Nat) (pre : Str) (n : Str) (r r' : Bool)
    (k k' : List (Str × FSTree)) (c : List (Str × FSTree))
    (hn : startsWithDot n = true ∨ n ∈ skipDirs) :
    walk fuel (FSTree.dir true ((n, FSTree.dir r k) :: c)) pre =
      walk fuel (FSTree.dir true ((n, FSTree.dir r' k') :: c)) pre := by
  cases fuel with
  | zero => rfl
  | succ fuel =>
    obtain ⟨l₁, l₂, h1, h2, h3⟩ :=
      insertionSort_cons_key (n, FSTree.dir r k) (n, FSTree.dir r' k') rfl c
    have hd1 : dirOK (n, FSTree.dir r k) = false := by
      rcases hn with h | h
      · simp [dirOK, isDirT, h]
      · simp [dirOK, isDirT, h]
    have hd2 : dirOK (n, FSTree.dir r' k') = false := by
      rcases hn with h | h
      · simp [dirOK, isDirT, h]
      · simp [dirOK, isDirT, h]
    have hf1 : fileOK (n, FSTree.dir r k) = false := by simp [fileOK, isFileT]
    have hf2 : fileOK (n, FSTree.dir r' k') = false := by simp [fileOK, isFileT]
    rw [walk_dir, walk_dir, h1, h2]
    simp [List.filter_append, List.filter_cons, hd1, hd2, hf1, hf2]

lemma walk_remove_hidden_noise (fuel : Nat) (pre : Str) (n : Str) (t : FSTree)
    (c : List (Str × FSTree))
    (hn : startsWithDot n = true ∨ (isDirT t = true ∧ n ∈ skipDirs))
    (hfiles : ((List.insertionSort entryLE c).filter fileOK).length ≤ 10) :
    walk fuel (FSTree.dir true ((n, t) :: c)) pre =
      walk fuel (FSTree.dir true c) pre := by
  cases fuel with
  | zero => rfl
  | succ fuel =>
    obtain ⟨l₁, l₂, h1, _, h3⟩ := insertionSort_cons_key (n, t) (n, t) rfl c
    have hd : dirOK (n, t) = false := by
      rcases hn with h | ⟨_, h⟩
      · simp [dirOK, h]
      · simp [dirOK, h]
    have hf : fileOK (n, t) = false := by
      rcases hn with h | ⟨h, _⟩
      · simp [fileOK, h]
      · cases t with
        | file rd bs => simp [isDirT] at h
        | dir rd cs => simp [fileOK, isFileT]
    have hnt : ¬ (10 < ((l₁ ++ l₂).filter fileOK).length) := by
      rw [← h3]
      exact Nat.not_lt.2 hfiles
    rw [walk_dir, walk_dir, h1, h3]
    simp only [List.filter_append, List.length_append] at hnt
    simp [List.filter_append, List.filter_cons, hd, hf, hnt]

lemma sorted_insertion_entries (children : List (Str × FSTree)) :
    List.Sorted entryLE (List.insertionSort entryLE children) :=
  List.sorted_insertionSort entryLE children

lemma walk_entries_sorted (children : List (Str × FSTree)) :
    List.Sorted entryLE
      (((List.insertionSort entryLE children).filter dirOK) ++
        (if decide (10 < ((List.insertionSort entryLE children).filter fileOK).length) = true
         then ((List.insertionSort entryLE children).filter fileOK).take 10
         else (List.insertionSort entryLE children).filter fileOK)) := by
  have hs := sorted_insertion_entries children
  have hdirs : List.Sorted entryLE ((List.insertionSort entryLE children).filter dirOK) :=
    hs.filter dirOK
  have hfiles : List.Sorted entryLE ((List.insertionSort entryLE children).filter fileOK) :=
    hs.filter fileOK
  have hshown : List.Sorted entryLE
      (if decide (10 < ((List.insertionSort entryLE children).filter fileOK).length) = true
       then ((List.insertionSort entryLE children).filter fileOK).take 10
       else (List.insertionSort entryLE children).filter fileOK) := by
    split
    · exact hfiles.sublist (List.take_sublist _ _)
    · exact hfiles
  refine List.pairwise_append.2 ⟨hdirs, hshown, ?_⟩
  intro a ha b hb
  have hda : isDirT a.2 = true := by
    have := (List.mem_filter.1 ha).2
    simp only [dirOK, Bool.and_eq_true] at this
    exact this.1.1
  have hfb : isFileT b.2 = true := by
    have hb2 : b ∈ (List.insertionSort entryLE children).filter fileOK := by
      revert hb
      split
      · intro hb
        exact List.take_subset _ _ hb
      · intro hb
        exact hb
    have := (List.mem_filter.1 hb2).2
    simp only [fileOK, Bool.and_eq_true] at this
    exact this.1
  have hdb : isDirT b.2 = false := by
    cases hbt : b.2 with
    | file rd bs => rfl
    | dir rd cs => rw [hbt] at hfb; simp [isFileT] at hfb
  unfold entryLE entryKey
  rw [hda, hdb]
  simp [keyLeB]

lemma walk_entries_visible (children : List (Str × FSTree)) (e : Str × FSTree)
    (he : e ∈ ((List.insertionSort entryLE children).filter dirOK) ++
      (if decide (10 < ((List.insertionSort entryLE children).filter fileOK).length) = true
       then ((List.insertionSort entryLE children).filter fileOK).take 10
       else (List.insertionSort entryLE children).filter fileOK)) :
    startsWithDot e.1 = false ∧ (isDirT e.2 = true → e.1 ∉ skipDirs) := by
  rcases List.mem_append.1 he with h | h
  · have hok := (List.mem_filter.1 h).2
    simp only [dirOK, Bool.and_eq_true, Bool.not_eq_true'] at hok
    refine ⟨hok.2, fun _ => ?_⟩
    have := hok.1.2
    simp only [decide_eq_false_iff_not] at this
    exact this
  · have h2 : e ∈ (List.insertionSort entryLE children).filter fileOK := by
      revert h
      split
      · intro h
        exact List.take_subset _ _ h
      · intro h
        exact h
    have hok := (List.mem_filter.1 h2).2
    simp only [fileOK, Bool.and_eq_true, Bool.not_eq_true'] at hok
    refine ⟨hok.2, fun hdir => ?_⟩
    cases het : e.2 with
    | file rd bs => rw [het] at hdir; simp [isDirT] at hdir
    | dir rd cs => rw [het] at hok; simp [isFileT] at hok

/-- C8: hidden entries and noise directories never contribute to the
rendered tree — replacing the entire contents of a hidden or noise
subdirectory never changes the output, and (when no file-count truncation
is in play at that level) deleting the hidden/noise entry outright never
changes the output; moreover the entry list each directory level renders
is sorted under the walker's comparison (subdirectories strictly before
files, each group case-insensitively by name) and contains no hidden
entry and no noise subdirectory. -/
theorem c8_noise_exclusion_and_order :
    (∀ fuel pre n r r' k k' c, (startsWithDot n = true ∨ n ∈ skipDirs) →
      walk fuel (FSTree.dir true ((n, FSTree.dir r k) :: c)) pre =
        walk fuel (FSTree.dir true ((n, FSTree.dir r' k') :: c)) pre) ∧
    (∀ fuel pre n t c,
      (startsWithDot n = true ∨ (isDirT t = true ∧ n ∈ skipDirs)) →
      ((List.insertionSort entryLE c).filter fileOK).length ≤ 10 →
      walk fuel (FSTree.dir true ((n, t) :: c)) pre =
        walk fuel (FSTree.dir true c) pre) ∧
    (∀ children : List (Str × FSTree),
      List.Sorted entryLE
        (((List.insertionSort entryLE children).filter dirOK) ++
          (if decide (10 < ((List.insertionSort entryLE children).filter fileOK).length) = true
           then ((List.insertionSort entryLE children).filter fileOK).take 10
           else (List.insertionSort entryLE children).filter fileOK))) ∧
    (∀ (children : List (Str × FSTree)) (e : Str × FSTree),
      e ∈ ((List.insertionSort entryLE children).filter dirOK) ++
        (if decide (10 < ((List.insertionSort entryLE children).filter fileOK).length) = true
         then ((List.insertionSort entryLE children).filter fileOK).take 10
         else (List.insertionSort entryLE children).filter fileOK) →
      startsWithDot e.1 = false ∧ (isDirT e.2 = true → e.1 ∉ skipDirs)) :=
  ⟨fun fuel pre n r r' k k' c hn => walk_replace_hidden_noise fuel pre n r r' k k' c hn,
   fun fuel pre n t c hn hf => walk_remove_hidden_noise fuel pre n t c hn hf,
   walk_entries_sorted,
   walk_entries_visible⟩

/-- Witness for C8: gutting a `.git` subtree and deleting a
`node_modules` subtree leave the rendered tree unchanged. -/
theorem c8_noise_exclusion_and_order_witness :
    walk 5 (FSTree.dir true
        [(str ".git", FSTree.dir true [(str "HEAD", FSTree.file true [])]),
         (str "a", FSTree.file true [])]) (str "") =
      walk 5 (FSTree.dir true
        [(str ".git", FSTree.dir true []), (str "a", FSTree.file true [])]) (str "") ∧
    walk 5 (FSTree.dir true
        [(str "node_modules", FSTree.dir true [(str "x", FSTree.file true [])]),
         (str "a", FSTree.file true [])]) (str "") =
      walk 5 (FSTree.dir true [(str "a", FSTree.file true [])]) (str "") :=
  ⟨c8_noise_exclusion_and_order.1 5 (str "") (str ".git") true true
      [(str "HEAD", FSTree.file true [])] [] [(str "a", FSTree.file true [])]
      (Or.inl (by decide)),
   c8_noise_exclusion_and_order.2.1 5 (str "") (str "node_modules")
      (FSTree.dir true [(str "x", FSTree.file true [])]) [(str "a", FSTree.file true [])]
      (Or.inr ⟨rfl, by decide⟩) (by decide)⟩

lemma renderLoop_truncated (recurse : (Str × FSTree) → Str → List Str) (pre : Str)
    (n : Nat) : ∀ (i : Nat) (l : List (Str × FSTree)),
    renderLoop recurse pre true n i l =
      l.flatMap (fun e =>
        match e.2 with
        | FSTree.dir _ _ =>
          ((pre ++ str "├── ") ++ (e.1 ++ str "/")) :: recurse e (pre ++ str "│   ")
        | FSTree.file _ _ => [(pre ++ str "├── ") ++ e.1]) := by
  intro i l
  induction l generalizing i with
  | nil => rfl
  | cons e rest ih =>
    obtain ⟨nm, te⟩ := e
    cases te with
    | dir rd cs => simp [renderLoop, List.flatMap_cons, ih]
    | file rd bs => simp [renderLoop, List.flatMap_cons, ih]

lemma flatMap_render_dirs (recurse : (Str × FSTree) → Str → List Str) (pre : Str) :
    ∀ l : List (Str × FSTree), (∀ e ∈ l, isDirT e.2 = true) →
    l.flatMap (fun e =>
        match e.2 with
        | FSTree.dir _ _ =>
          ((pre ++ str "├── ") ++ (e.1 ++ str "/")) :: recurse e (pre ++ str "│   ")
        | FSTree.file _ _ => [(pre ++ str "├── ") ++ e.1]) =
      l.flatMap (fun e =>
        ((pre ++ str "├── ") ++ (e.1 ++ str "/")) :: recurse e (pre ++ str "│   ")) := by
  intro l h
  induction l with
  | nil => rfl
  | cons e rest ih =>
    obtain ⟨nm, te⟩ := e
    cases te with
    | dir rd cs =>
      simp only [List.flatMap_cons, ih (fun x hx => h x (List.mem_cons_of_mem _ hx))]
    | file rd bs =>
      have := h _ (List.mem_cons_self _ _)
      simp [isFileT, isDirT] at this

lemma flatMap_render_files (recurse : (Str × FSTree) → Str → List Str) (pre : Str) :
    ∀ l : List (Str × FSTree), (∀ e ∈ l, isFileT e.2 = true) →
    l.flatMap (fun e =>
        match e.2 with
        | FSTree.dir _ _ =>
          ((pre ++ str "├── ") ++ (e.1 ++ str "/")) :: recurse e (pre ++ str "│   ")
        | FSTree.file _ _ => [(pre ++ str "├── ") ++ e.1]) =
      l.map (fun e => (pre ++ str "├── ") ++ e.1) := by
  intro l h
  induction l with
  | nil => rfl
  | cons e rest ih =>
    obtain ⟨nm, te⟩ := e
    cases te with
    | dir rd cs =>
      have := h _ (List.mem_cons_self _ _)
      simp [isFileT, isDirT] at this
    | file rd bs =>
      simp only [List.flatMap_cons, List.map_cons,
        ih (fun x hx => h x (List.mem_cons_of_mem _ hx))]
      rfl

def c3children : List (Str × FSTree) :=
  (str ".h", FSTree.dir true []) ::
    ([str "a", str "b", str "c", str "d", str "e", str "f", str "g", str "h",
      str "i", str "j", str "k"].map (fun n => (n, FSTree.file true [])))

def c3fs : FSTree := FSTree.dir true c3children

/-- C3 (counterexample): a directory with 11 files and one hidden
subdirectory renders the synthetic line with count 2
(`len(entries) - len(dirs) - 10`), although the total number of files in
the directory minus 10 is 1 — refuting the claimed count formula. -/
theorem c3_counterexample :
    treeLines c3fs (str "root") =
      [str "root/", str "├── a", str "├── b", str "├── c", str "├── d",
       str "├── e", str "├── f", str "├── g", str "├── h", str "├── i",
       str "├── j", str "└── ... (2 more files)"] ∧
    (c3children.filter (fun e => isFileT e.2)).length - 10 = 1 ∧
    ¬ (str "└── ... (2 more files)" = str "└── ... (1 more files)") := by
  refine ⟨by decide, by decide, by decide⟩

/-- C3 (amended): when a directory level holds more than 10 (post-filter,
post-sort) files, exactly the first 10 files of the case-insensitive sort
are rendered, every real entry (including the last) carries the `├── `
connector, and one synthetic `└── ... ({count} more files)` line renders
last — with `count` equal to the number of raw directory entries minus
the number of rendered subdirectories minus 10 (which is total files
minus 10 only when no hidden or noise entries exist). -/
theorem c3_amended (children : List (Str × FSTree)) (rootName : Str)
    (h : 10 < ((List.insertionSort entryLE children).filter fileOK).length) :
    treeLines (FSTree.dir true children) rootName =
      (rootName ++ str "/") ::
        (((List.insertionSort entryLE children).filter dirOK).flatMap (fun e =>
            (str "├── " ++ (e.1 ++ str "/")) :: walk MAX_TREE_DEPTH e.2 (str "│   ")) ++
          (((List.insertionSort entryLE children).filter fileOK).take 10).map (fun e =>
              str "├── " ++ e.1) ++
          [str "└── ... (" ++
            (natStr (children.length -
              ((List.insertionSort entryLE children).filter dirOK).length - 10) ++
              str " more files)")]) := by
  have ht : decide (10 < ((List.insertionSort entryLE children).filter fileOK).length)
      = true := decide_eq_true h
  have hdirs : ∀ e ∈ (List.insertionSort entryLE children).filter dirOK,
      isDirT e.2 = true := by
    intro e he
    have := (List.mem_filter.1 he).2
    simp only [dirOK, Bool.and_eq_true] at this
    exact this.1.1
  have hfiles : ∀ e ∈ ((List.insertionSort entryLE children).filter fileOK).take 10,
      isFileT e.2 = true := by
    intro e he
    have := (List.mem_filter.1 (List.take_subset _ _ he)).2
    simp only [fileOK, Bool.and_eq_true] at this
    exact this.1
  have hpre : (str "" : Str) = ([] : Str) := rfl
  unfold treeLines
  rw [walk_dir]
  simp only [ht, if_true]
  rw [renderLoop_truncated, List.flatMap_append _ _ _,
    flatMap_render_dirs _ _ _ hdirs, flatMap_render_files _ _ _ hfiles,
    List.length_insertionSort]
  simp [hpre]

/-- Witness for C3 (amended) on a directory of 11 plain files. -/
theorem c3_amended_witness :
    treeLines (FSTree.dir true (c3children.drop 1)) (str "root") =
      (str "root" ++ str "/") ::
        (((List.insertionSort entryLE (c3children.drop 1)).filter dirOK).flatMap (fun e =>
            (str "├── " ++ (e.1 ++ str "/")) :: walk MAX_TREE_DEPTH e.2 (str "│   ")) ++
          (((List.insertionSort entryLE (c3children.drop 1)).filter fileOK).take 10).map
            (fun e => str "├── " ++ e.1) ++
          [str "└── ... (" ++
            (natStr ((c3children.drop 1).length -
              ((List.insertionSort entryLE (c3children.drop 1)).filter dirOK).length - 10) ++
              str " more files)")]) :=
  c3_amended (c3children.drop 1) (str "root") (by decide)

end Clawcrew
